import Mathlib

/-!
Verification of the n2n AES-CBC packet transform (`src/transform_aes.c`)
against its natural-language specification.

The C source is embedded shallowly:

* byte buffers are `List Nat` (each entry a byte value);
* the AES block cipher and the SHA512 hash are abstract function parameters:
  the C code never looks inside them, it only composes them, so every theorem
  is stated for an arbitrary block cipher `E`/`D` (with the evident
  length-preservation and inverse hypotheses where decryption must undo
  encryption) and an arbitrary 64-byte digest function;
* machine-integer effects that matter are made explicit: the `size_t`
  subtraction in the decoder's entry guard wraps modulo 2^64, and the decoder
  masks the padding byte with `& 0xff`;
* `rand()` draws are passed in as explicit `iv_seed`/`nonce` arguments;
* the encoder's and decoder's results are modelled as a pair of the C `int`
  return value and an `Option (List Nat)` recording exactly the bytes the
  function copied into the caller's output buffer (`none` = no write at all).

Constants and helpers that live in headers outside this repository slice
(`n2n.h` wire helpers, `N2N_PKT_BUF_SIZE`) are modelled from the spec and
noted as such on their declarations.
-/

/-- `#define N2N_AES_TRANSFORM_VERSION 1` (transform_aes.c line 27). -/
def N2N_AES_TRANSFORM_VERSION : Nat := 1

/-- Modelled from the spec: `N2N_PKT_BUF_SIZE` is defined in `n2n.h`, which is
outside the provided source slice; the spec calls it the fixed maximum packet
("scratch") buffer size. Its value in this repository's headers is 2048. -/
def N2N_PKT_BUF_SIZE : Nat := 2048

/-- `AES_BLOCK_SIZE` from the AES library headers: 16 bytes. -/
def AES_BLOCK_SIZE : Nat := 16

def AES256_KEY_BYTES : Nat := 256 / 8

def AES192_KEY_BYTES : Nat := 192 / 8

def AES128_KEY_BYTES : Nat := 128 / 8

def TRANSOP_AES_VER_SIZE : Nat := 1

def TRANSOP_AES_SA_SIZE : Nat := 4

def TRANSOP_AES_IV_SEED_SIZE : Nat := 8

def TRANSOP_AES_PREAMBLE_SIZE : Nat :=
  TRANSOP_AES_VER_SIZE + TRANSOP_AES_SA_SIZE + TRANSOP_AES_IV_SEED_SIZE

def TRANSOP_AES_NONCE_SIZE : Nat := 4

/-- Modelled from the spec: the wire helpers (`encode_uint32` etc.) live in
`n2n.h`/`encode.c` outside the source slice.  The four bytes of a 32-bit value
in its in-memory representation (least significant byte first).  The only
32-bit fields ever written are the SA number, a constant 0, and the nonce,
which is never parsed back, so the byte order is not observable. -/
def u32Bytes (x : Nat) : List Nat :=
  [x % 256, x / 256 % 256, x / 65536 % 256, x / 16777216 % 256]

/-- Modelled from the spec: raw `memcpy` of a `uint64_t` (`encode_buf` /
`decode_buf`), i.e. the 8 bytes of the seed in its natural in-memory
representation, least significant byte first. -/
def u64Bytes (x : Nat) : List Nat :=
  u32Bytes x ++ u32Bytes (x / 4294967296)

/-- Reassemble a `uint64_t` from its 8 in-memory bytes (`decode_buf` into
`iv_seed`). -/
def u64OfBytes (l : List Nat) : Nat :=
  l.foldr (fun b acc => b + 256 * acc) 0

/-- `size_t` subtraction: wraps modulo 2^64 when the subtrahend exceeds the
minuend (the decoder's entry guard relies on this). -/
def c_size_t_sub (a b : Nat) : Nat :=
  (a + (18446744073709551616 - b)) % 18446744073709551616

/-- An OpenSSL `AES_KEY` as observable through this module: the raw key bytes
handed to `AES_set_encrypt_key`/`AES_set_decrypt_key` together with the
requested key length in bits (the schedule expansion itself is part of the
abstract cipher). -/
structure AES_KEY where
  key : List Nat
  bits : Nat
deriving Repr, DecidableEq

/-- A block cipher primitive: `AES_ecb_encrypt` on a single block, or the
per-block function of `AES_cbc_encrypt`.  Takes the key and one 16-byte block. -/
def BlockFn : Type := AES_KEY → List Nat → List Nat

/-- `AES_set_encrypt_key(userKey, bits, key)`: records the first `bits/8`
bytes of the supplied key material and the bit length. -/
def AES_set_encrypt_key (userKey : List Nat) (bits : Nat) : AES_KEY :=
  ⟨userKey.take (bits / 8), bits⟩

/-- `AES_set_decrypt_key(userKey, bits, key)`: same key material, for the
decryption direction. -/
def AES_set_decrypt_key (userKey : List Nat) (bits : Nat) : AES_KEY :=
  ⟨userKey.take (bits / 8), bits⟩

/-- `struct transop_aes` (transform_aes.c lines 45-50). -/
structure transop_aes where
  enc_key : AES_KEY
  dec_key : AES_KEY
  iv_enc_key : AES_KEY
  iv_ext_val : List Nat
deriving Repr, DecidableEq

/-- `struct sha512_keybuf` (transform_aes.c lines 52-56). -/
structure sha512_keybuf where
  enc_dec_key : List Nat
  iv_enc_key : List Nat
  iv_ext_val : List Nat
deriving Repr, DecidableEq

/-- The overlay of `struct sha512_keybuf` on the 64-byte SHA512 digest:
`SHA512(key, key_size, (u_char*)&keybuf)` writes the digest over the struct,
whose fields occupy byte offsets `[0, 32)`, `[32, 48)` and `[48, 64)` in
declaration order. -/
def sha512_keybuf_of (digest : List Nat) : sha512_keybuf :=
  { enc_dec_key := digest.take AES256_KEY_BYTES
    iv_enc_key := (digest.drop AES256_KEY_BYTES).take AES128_KEY_BYTES
    iv_ext_val := (digest.drop (AES256_KEY_BYTES + AES128_KEY_BYTES)).take AES128_KEY_BYTES }

/-- `aes_best_keysize` (transform_aes.c lines 72-86). -/
def aes_best_keysize (numBytes : Nat) : Nat :=
  if numBytes ≥ AES256_KEY_BYTES then
    AES256_KEY_BYTES
  else if numBytes ≥ AES192_KEY_BYTES then
    AES192_KEY_BYTES
  else
    AES128_KEY_BYTES

/-- `setup_aes_key` (transform_aes.c lines 261-294), parameterised by the
SHA512 digest function.  `SHA512(key, key_size, ...)` hashes the first
`key_size` bytes of `key`. -/
def setup_aes_key (SHA512 : List Nat → List Nat) (key : List Nat) (key_size : Nat) :
    transop_aes :=
  let aes_keysize_bytes := aes_best_keysize key_size
  let aes_keysize_bits := 8 * aes_keysize_bytes
  let keybuf := sha512_keybuf_of (SHA512 (key.take key_size))
  { enc_key := AES_set_encrypt_key keybuf.enc_dec_key aes_keysize_bits
    dec_key := AES_set_decrypt_key keybuf.enc_dec_key aes_keysize_bits
    iv_enc_key := AES_set_encrypt_key keybuf.iv_enc_key (AES128_KEY_BYTES * 8)
    iv_ext_val := keybuf.iv_ext_val }

/-- `set_aes_cbc_iv` (transform_aes.c lines 88-102), parameterised by the
single-block encryption `E` (`AES_ecb_encrypt` with `AES_ENCRYPT`): the
16-byte buffer `iv_full` receives the first 8 bytes of `iv_ext_val` followed
by the 8 in-memory bytes of the seed, and is then encrypted under
`iv_enc_key`. -/
def set_aes_cbc_iv (E : BlockFn) (priv : transop_aes) (iv_seed : Nat) : List Nat :=
  let iv_full := priv.iv_ext_val.take (TRANSOP_AES_IV_SEED_SIZE) ++ u64Bytes iv_seed
  E priv.iv_enc_key iv_full

/-- Byte-wise XOR of two buffers (the block chaining step of CBC). -/
def xorBytes (a b : List Nat) : List Nat :=
  List.zipWith (fun x y => x ^^^ y) a b

/-- `AES_cbc_encrypt(..., AES_ENCRYPT)` processing `n` blocks: each 16-byte
source block is XORed with the running chaining value (initially the IV) and
encrypted; the ciphertext block becomes the next chaining value.  The module
only ever passes lengths that are multiples of the block size, so the block
count `n` is `length / 16`. -/
def cbcEncryptN (E : BlockFn) (key : AES_KEY) : Nat → List Nat → List Nat → List Nat
  | 0, _, _ => []
  | n + 1, ivec, src =>
    let c := E key (xorBytes ivec (src.take AES_BLOCK_SIZE))
    c ++ cbcEncryptN E key n c (src.drop AES_BLOCK_SIZE)

/-- `AES_cbc_encrypt(..., AES_DECRYPT)` processing `n` blocks: each 16-byte
ciphertext block is decrypted and XORed with the running chaining value
(initially the IV); the ciphertext block becomes the next chaining value. -/
def cbcDecryptN (D : BlockFn) (key : AES_KEY) : Nat → List Nat → List Nat → List Nat
  | 0, _, _ => []
  | n + 1, ivec, src =>
    xorBytes ivec (D key (src.take AES_BLOCK_SIZE)) ++
      cbcDecryptN D key n (src.take AES_BLOCK_SIZE) (src.drop AES_BLOCK_SIZE)

/-- The encoder's pre-encryption scratch buffer (transform_aes.c lines
123-163), already cut to the `len2` bytes that are encrypted: the zeroed
2048-byte `assembly` array receives the 4 nonce bytes, then the plaintext,
and the pad count is stored at index `len2 - 1`.  When `len2 - 1` falls past
the end of the declared array the C write and the subsequent CBC read both
touch the adjacent stack bytes; under the flat-memory idealisation those
bytes are modelled as zeros (this only arises for `in_len = 2044`, where the
decoder later rejects the frame on length alone). -/
def aes_assembly (inbuf : List Nat) (nonce : Nat) : List Nat :=
  let in_len := inbuf.length
  let len := in_len + TRANSOP_AES_NONCE_SIZE
  let len2 := (len / AES_BLOCK_SIZE + 1) * AES_BLOCK_SIZE
  let padding := len2 - len
  let buf := (u32Bytes nonce ++ inbuf) ++ List.replicate (N2N_PKT_BUF_SIZE - len) 0
  let buf2 := buf ++ List.replicate (len2 - buf.length) 0
  (buf2.set (len2 - 1) padding).take len2

/-- `transop_encode_aes` (transform_aes.c lines 114-180), parameterised by the
block encryption `E` and with the two `rand()` draws passed in explicitly.
Result: the C `int` return value (`-1` on rejection) paired with the bytes
written to `outbuf` (`none` when nothing is written). -/
def transop_encode_aes (E : BlockFn) (priv : transop_aes) (out_len : Nat)
    (inbuf : List Nat) (iv_seed nonce : Nat) : Int × Option (List Nat) :=
  let in_len := inbuf.length
  if in_len + TRANSOP_AES_NONCE_SIZE ≤ N2N_PKT_BUF_SIZE then
    if in_len + TRANSOP_AES_NONCE_SIZE + TRANSOP_AES_PREAMBLE_SIZE ≤ out_len then
      let len := in_len + TRANSOP_AES_NONCE_SIZE
      let len2 := (len / AES_BLOCK_SIZE + 1) * AES_BLOCK_SIZE
      let preamble := N2N_AES_TRANSFORM_VERSION :: (u32Bytes 0 ++ u64Bytes iv_seed)
      let enc_ivec := set_aes_cbc_iv E priv iv_seed
      let ct := cbcEncryptN E priv.enc_key (len2 / AES_BLOCK_SIZE) enc_ivec
        (aes_assembly inbuf nonce)
      (((len2 + TRANSOP_AES_PREAMBLE_SIZE : Nat) : Int), some (preamble ++ ct))
    else
      (-1, none)
  else
    (-1, none)

/-- `transop_decode_aes` (transform_aes.c lines 183-259), parameterised by the
block encryption `E` (for the IV derivation) and decryption `D`.  Result: the
C `int` return value paired with the bytes copied to `outbuf` (`none` when
the final `memcpy` is never reached).  The entry guard's `in_len -
TRANSOP_AES_PREAMBLE_SIZE` is a `size_t` subtraction and wraps.  Note that on
the padding-bound failure branch the C code does not reset `len`, so the
already-computed cipher length is returned. -/
def transop_decode_aes (E D : BlockFn) (priv : transop_aes) (out_len : Nat)
    (inbuf : List Nat) : Nat × Option (List Nat) :=
  let in_len := inbuf.length
  if c_size_t_sub in_len TRANSOP_AES_PREAMBLE_SIZE ≤ N2N_PKT_BUF_SIZE ∧
      TRANSOP_AES_PREAMBLE_SIZE + TRANSOP_AES_NONCE_SIZE ≤ in_len then
    let aes_enc_ver := inbuf.getD 0 0
    if aes_enc_ver = N2N_AES_TRANSFORM_VERSION then
      let iv_seed := u64OfBytes
        ((inbuf.drop (TRANSOP_AES_VER_SIZE + TRANSOP_AES_SA_SIZE)).take
          TRANSOP_AES_IV_SEED_SIZE)
      let len := in_len - TRANSOP_AES_PREAMBLE_SIZE
      if len % AES_BLOCK_SIZE = 0 then
        let dec_ivec := set_aes_cbc_iv E priv iv_seed
        let assembly := cbcDecryptN D priv.dec_key (len / AES_BLOCK_SIZE) dec_ivec
          ((inbuf.drop TRANSOP_AES_PREAMBLE_SIZE).take len)
        let padding := assembly.getD (len - 1) 0 % 256
        if padding + TRANSOP_AES_NONCE_SIZE ≤ len then
          let lenOut := len - padding - TRANSOP_AES_NONCE_SIZE
          (lenOut, some ((assembly.drop TRANSOP_AES_NONCE_SIZE).take lenOut))
        else
          (len, none)
      else
        (0, none)
    else
      (0, none)
  else
    (0, none)

/-- The identity block "cipher": used to instantiate the abstract cipher
parameters on concrete witness inputs (it preserves block length and is its
own inverse). -/
def idBlock : BlockFn := fun _ b => b

/-- A fixed all-zero 64-byte digest function, standing in for SHA512 on
concrete witness inputs. -/
def zeroDigest : List Nat → List Nat := fun _ => List.replicate 64 0

/-- A concrete transform state for witness evaluations: derived from an
8-byte secret through `setup_aes_key` with the all-zero digest function. -/
def stZero : transop_aes := setup_aes_key zeroDigest (List.replicate 8 48) 8

/-! ### Basic byte-buffer lemmas -/

theorem length_u32Bytes (x : Nat) : (u32Bytes x).length = 4 := rfl

theorem length_u64Bytes (x : Nat) : (u64Bytes x).length = 8 := rfl

/-- Reading the 8 stored bytes of a `uint64_t` back recovers its value
(reduced modulo 2^64, which the C value always is). -/
theorem u64OfBytes_u64Bytes (x : Nat) :
    u64OfBytes (u64Bytes x) = x % 18446744073709551616 := by
  simp only [u64OfBytes, u64Bytes, u32Bytes, List.cons_append, List.nil_append,
    List.foldr_cons, List.foldr_nil]
  omega

/-- Storing a `uint64_t` only exposes its value modulo 2^64. -/
theorem u64Bytes_mod (x : Nat) :
    u64Bytes (x % 18446744073709551616) = u64Bytes x := by
  simp only [u64Bytes, u32Bytes, List.cons_append, List.nil_append, List.cons.injEq,
    and_true]
  omega

theorem u64Bytes_roundtrip (x : Nat) :
    u64Bytes (u64OfBytes (u64Bytes x)) = u64Bytes x := by
  rw [u64OfBytes_u64Bytes, u64Bytes_mod]

/-- The IV depends on the transmitted seed only through its 8 stored bytes. -/
theorem set_aes_cbc_iv_parse (E : BlockFn) (priv : transop_aes) (s : Nat) :
    set_aes_cbc_iv E priv (u64OfBytes (u64Bytes s)) = set_aes_cbc_iv E priv s := by
  unfold set_aes_cbc_iv
  rw [u64Bytes_roundtrip]

theorem replicate_set (j n a : Nat) (h : j < n) :
    (List.replicate n (0 : Nat)).set j a =
      List.replicate j 0 ++ a :: List.replicate (n - j - 1) 0 := by
  induction j generalizing n with
  | zero =>
    cases n with
    | zero => omega
    | succ m => simp [List.replicate_succ]
  | succ i ih =>
    cases n with
    | zero => omega
    | succ m =>
      simp only [List.replicate_succ, List.set_cons_succ, List.cons_append,
        Nat.succ_sub_succ]
      rw [ih m (by omega)]

theorem getD_concat (l : List Nat) (a : Nat) : (l ++ [a]).getD l.length 0 = a := by
  induction l with
  | nil => rfl
  | cons x xs ih => simp only [List.cons_append, List.length_cons, List.getD_cons_succ, ih]

/-! ### CBC mode lemmas -/

theorem length_xorBytes (a b : List Nat) :
    (xorBytes a b).length = min a.length b.length := by
  simp [xorBytes]

theorem xorBytes_cancel (a b : List Nat) (h : a.length = b.length) :
    xorBytes a (xorBytes a b) = b := by
  induction a generalizing b with
  | nil =>
    cases b with
    | nil => rfl
    | cons y ys => simp at h
  | cons x xs ih =>
    cases b with
    | nil => simp at h
    | cons y ys =>
      simp only [xorBytes, List.zipWith_cons_cons, List.cons.injEq]
      exact ⟨Nat.xor_cancel_left x y, ih ys (by simpa using h)⟩

theorem cbcEncryptN_length (E : BlockFn) (key : AES_KEY)
    (hE : ∀ k b, b.length = 16 → (E k b).length = 16) :
    ∀ (n : Nat) (iv src : List Nat), iv.length = 16 → 16 * n ≤ src.length →
      (cbcEncryptN E key n iv src).length = 16 * n := by
  intro n
  induction n with
  | zero => intro iv src _ _; simp [cbcEncryptN]
  | succ m ih =>
    intro iv src hiv hsrc
    have htake : (src.take AES_BLOCK_SIZE).length = 16 := by
      simp only [AES_BLOCK_SIZE, List.length_take]
      omega
    have hx : (xorBytes iv (src.take AES_BLOCK_SIZE)).length = 16 := by
      rw [length_xorBytes, hiv, htake]; rfl
    have hc : (E key (xorBytes iv (src.take AES_BLOCK_SIZE))).length = 16 := hE _ _ hx
    have hdrop : 16 * m ≤ (src.drop AES_BLOCK_SIZE).length := by
      simp only [AES_BLOCK_SIZE, List.length_drop]
      omega
    simp only [cbcEncryptN, List.length_append, hc, ih _ _ hc hdrop]
    omega

/-- CBC decryption undoes CBC encryption block by block, for any block cipher
whose decryption direction inverts its encryption direction. -/
theorem cbcDecryptN_cbcEncryptN (E D : BlockFn) (ke kd : AES_KEY)
    (hE : ∀ k b, b.length = 16 → (E k b).length = 16)
    (hD : ∀ b, b.length = 16 → D kd (E ke b) = b) :
    ∀ (n : Nat) (iv src : List Nat), iv.length = 16 → src.length = 16 * n →
      cbcDecryptN D kd n iv (cbcEncryptN E ke n iv src) = src := by
  intro n
  induction n with
  | zero =>
    intro iv src _ hsrc
    have : src = [] := List.eq_nil_of_length_eq_zero (by omega)
    simp [this, cbcEncryptN, cbcDecryptN]
  | succ m ih =>
    intro iv src hiv hsrc
    have htake : (src.take AES_BLOCK_SIZE).length = 16 := by
      simp only [AES_BLOCK_SIZE, List.length_take]
      omega
    have hx : (xorBytes iv (src.take AES_BLOCK_SIZE)).length = 16 := by
      rw [length_xorBytes, hiv, htake]; rfl
    have hc : (E ke (xorBytes iv (src.take AES_BLOCK_SIZE))).length = AES_BLOCK_SIZE :=
      hE _ _ hx
    have hdrop : (src.drop AES_BLOCK_SIZE).length = 16 * m := by
      simp only [AES_BLOCK_SIZE, List.length_drop]
      omega
    simp only [cbcEncryptN, cbcDecryptN]
    rw [List.take_left' hc, List.drop_left' hc, hD _ hx,
      xorBytes_cancel _ _ (by rw [hiv, htake]), ih _ _ (hE _ _ hx) hdrop]
    exact List.take_append_drop _ _

/-! ### The encoder's pre-encryption buffer -/

/-- Structure of the encoder's padded pre-encryption buffer: the 4 nonce
bytes, the plaintext, `pad - 1` zero bytes, and the pad count `pad` as the
final byte, where `pad` rounds `4 + |inbuf|` up to the next multiple of 16
with at least one byte added. -/
theorem aes_assembly_eq (inbuf : List Nat) (nonce : Nat)
    (h : inbuf.length + 4 ≤ 2048) :
    aes_assembly inbuf nonce =
      (u32Bytes nonce ++ inbuf) ++
        (List.replicate ((((inbuf.length + 4) / 16 + 1) * 16 - (inbuf.length + 4)) - 1) 0 ++
          [((inbuf.length + 4) / 16 + 1) * 16 - (inbuf.length + 4)]) := by
  unfold aes_assembly
  simp only [TRANSOP_AES_NONCE_SIZE, AES_BLOCK_SIZE, N2N_PKT_BUF_SIZE]
  set n := inbuf.length with hn
  set len := n + 4 with hlen
  set len2 := (len / 16 + 1) * 16 with hlen2
  set pad := len2 - len with hpad
  have hdiv : len / 16 * 16 ≤ len ∧ len < len / 16 * 16 + 16 := by omega
  have hpad1 : 1 ≤ pad := by omega
  have hpad16 : pad ≤ 16 := by omega
  have hbase : (u32Bytes nonce ++ inbuf).length = len := by
    simp only [List.length_append, u32Bytes, List.length_cons, List.length_nil, hlen, hn]
    omega
  have hbuflen : ((u32Bytes nonce ++ inbuf) ++ List.replicate (2048 - len) 0).length = 2048 := by
    simp only [List.length_append, hbase, List.length_replicate]
    omega
  rw [hbuflen, List.append_assoc, ← List.replicate_add]
  set Z := 2048 - len + (len2 - 2048) with hZ
  have hZpad : pad ≤ Z := by omega
  have hset : ((u32Bytes nonce ++ inbuf) ++ List.replicate Z 0).set (len2 - 1) pad =
      (u32Bytes nonce ++ inbuf) ++ (List.replicate Z 0).set (len2 - 1 - len) pad := by
    apply List.set_append_right
    omega
  rw [hset, replicate_set (len2 - 1 - len) Z pad (by omega)]
  have hj : len2 - 1 - len = pad - 1 := by omega
  rw [hj]
  have hsplit : (u32Bytes nonce ++ inbuf) ++
      (List.replicate (pad - 1) 0 ++ pad :: List.replicate (Z - (pad - 1) - 1) 0) =
      ((u32Bytes nonce ++ inbuf) ++
        (List.replicate (pad - 1) 0 ++ [pad])) ++ List.replicate (Z - (pad - 1) - 1) 0 := by
    simp [List.append_assoc]
  rw [hsplit]
  apply List.take_left'
  simp only [List.length_append, hbase, List.length_replicate, List.length_cons,
    List.length_nil]
  omega

/-- Length of the padded pre-encryption buffer: `len2`, the next multiple of
16 strictly above `4 + |inbuf|`. -/
theorem aes_assembly_length (inbuf : List Nat) (nonce : Nat)
    (h : inbuf.length + 4 ≤ 2048) :
    (aes_assembly inbuf nonce).length = ((inbuf.length + 4) / 16 + 1) * 16 := by
  rw [aes_assembly_eq inbuf nonce h]
  simp only [List.length_append, List.length_replicate, List.length_cons, List.length_nil,
    u32Bytes, List.length_cons]
  omega

/-! ### Encoder and decoder structural lemmas -/

/-- When both entry guards pass, the encoder emits the 13-byte preamble
`version(=1) || SA(=0) || seed` followed by the CBC encryption of the padded
assembly buffer, and returns the total frame length. -/
theorem transop_encode_aes_ok (E : BlockFn) (priv : transop_aes) (out_len : Nat)
    (inbuf : List Nat) (seed nonce : Nat)
    (h1 : inbuf.length + 4 ≤ 2048) (h2 : inbuf.length + 17 ≤ out_len) :
    transop_encode_aes E priv out_len inbuf seed nonce =
      (((((inbuf.length + 4) / 16 + 1) * 16 + 13 : Nat) : Int),
       some ((1 :: (u32Bytes 0 ++ u64Bytes seed)) ++
         cbcEncryptN E priv.enc_key ((inbuf.length + 4) / 16 + 1)
           (set_aes_cbc_iv E priv seed) (aes_assembly inbuf nonce))) := by
  unfold transop_encode_aes
  simp only [TRANSOP_AES_NONCE_SIZE, N2N_PKT_BUF_SIZE, TRANSOP_AES_PREAMBLE_SIZE,
    TRANSOP_AES_VER_SIZE, TRANSOP_AES_SA_SIZE, TRANSOP_AES_IV_SEED_SIZE, AES_BLOCK_SIZE,
    N2N_AES_TRANSFORM_VERSION]
  rw [if_pos h1, if_pos (by omega)]
  rw [Nat.mul_div_cancel _ (by norm_num : (0:Nat) < 16)]

/-- The decoder, applied to a frame the encoder just produced (with plaintext
short enough that the padded buffer fits the scratch array), recovers exactly
the plaintext: it returns its length and copies exactly its bytes out. -/
theorem transop_decode_aes_frame (E D : BlockFn) (priv : transop_aes) (dout : Nat)
    (P : List Nat) (seed nonce : Nat)
    (hE : ∀ k b, b.length = 16 → (E k b).length = 16)
    (hD : ∀ b, b.length = 16 → D priv.dec_key (E priv.enc_key b) = b)
    (hext : 8 ≤ priv.iv_ext_val.length)
    (hP : P.length ≤ 2043) :
    transop_decode_aes E D priv dout
      ((1 :: (u32Bytes 0 ++ u64Bytes seed)) ++
        cbcEncryptN E priv.enc_key ((P.length + 4) / 16 + 1)
          (set_aes_cbc_iv E priv seed) (aes_assembly P nonce)) = (P.length, some P) := by
  have hivlen : (set_aes_cbc_iv E priv seed).length = 16 := by
    unfold set_aes_cbc_iv
    apply hE
    simp only [List.length_append, List.length_take, length_u64Bytes,
      TRANSOP_AES_IV_SEED_SIZE]
    omega
  obtain ⟨nb, hnb⟩ : ∃ x, (P.length + 4) / 16 + 1 = x := ⟨_, rfl⟩
  rw [hnb]
  have hnbdiv : (P.length + 4) / 16 * 16 ≤ P.length + 4 ∧
      P.length + 4 < (P.length + 4) / 16 * 16 + 16 := by omega
  have hnb128 : 1 ≤ nb ∧ nb ≤ 128 := by omega
  have hAlen : (aes_assembly P nonce).length = 16 * nb := by
    rw [aes_assembly_length P nonce (by omega)]
    omega
  obtain ⟨ct, hct⟩ : ∃ x,
      cbcEncryptN E priv.enc_key nb (set_aes_cbc_iv E priv seed) (aes_assembly P nonce)
        = x := ⟨_, rfl⟩
  rw [hct]
  have hctlen : ct.length = 16 * nb := by
    rw [← hct]
    exact cbcEncryptN_length E priv.enc_key hE nb _ _ hivlen (by omega)
  have hpre13 : ((1 : Nat) :: (u32Bytes 0 ++ u64Bytes seed)).length = 13 := rfl
  have hframelen : ((1 :: (u32Bytes 0 ++ u64Bytes seed)) ++ ct).length = 13 + 16 * nb := by
    simp only [List.length_append, hpre13, hctlen]
  unfold transop_decode_aes
  simp only [TRANSOP_AES_PREAMBLE_SIZE, TRANSOP_AES_NONCE_SIZE, TRANSOP_AES_VER_SIZE,
    TRANSOP_AES_SA_SIZE, TRANSOP_AES_IV_SEED_SIZE, AES_BLOCK_SIZE, N2N_PKT_BUF_SIZE,
    N2N_AES_TRANSFORM_VERSION, hframelen]
  have hsub : c_size_t_sub (13 + 16 * nb) 13 = 16 * nb := by
    unfold c_size_t_sub
    omega
  simp only [hsub]
  rw [if_pos (by constructor <;> omega)]
  have hver : ((1 :: (u32Bytes 0 ++ u64Bytes seed)) ++ ct).getD 0 0 = 1 := rfl
  simp only [hver]
  rw [if_pos trivial]
  simp only [show (13 + 16 * nb - (1 + 4 + 8) : Nat) = 16 * nb from by omega]
  have hseedbytes : (((1 :: (u32Bytes 0 ++ u64Bytes seed)) ++ ct).drop (1 + 4)).take 8 =
      u64Bytes seed := by
    have hassoc : (1 :: (u32Bytes 0 ++ u64Bytes seed)) ++ ct =
        (1 :: u32Bytes 0) ++ (u64Bytes seed ++ ct) := by
      simp [List.cons_append, List.append_assoc]
    rw [hassoc, List.drop_left' (by rfl : ((1:Nat) :: u32Bytes 0).length = 1 + 4),
      List.take_left' (length_u64Bytes seed)]
  simp only [hseedbytes, set_aes_cbc_iv_parse]
  simp only [Nat.mul_mod_right]
  rw [if_pos trivial]
  have hdrop13 : ((1 :: (u32Bytes 0 ++ u64Bytes seed)) ++ ct).drop (1 + 4 + 8) = ct :=
    List.drop_left' hpre13
  have htakect : ct.take (16 * nb) = ct := by
    rw [← hctlen]
    exact List.take_length ct
  simp only [hdrop13, htakect, Nat.mul_div_cancel_left _ (by norm_num : (0:Nat) < 16)]
  have hdec : cbcDecryptN D priv.dec_key nb (set_aes_cbc_iv E priv seed) ct =
      aes_assembly P nonce := by
    rw [← hct]
    exact cbcDecryptN_cbcEncryptN E D priv.enc_key priv.dec_key hE hD nb _ _ hivlen
      (by omega)
  simp only [hdec]
  have hlast : (aes_assembly P nonce).getD (16 * nb - 1) 0 = 16 * nb - (P.length + 4) := by
    rw [aes_assembly_eq P nonce (by omega),
      show ((P.length + 4) / 16 + 1) * 16 - (P.length + 4) = 16 * nb - (P.length + 4)
        from by omega]
    rw [show (u32Bytes nonce ++ P) ++
        (List.replicate (16 * nb - (P.length + 4) - 1) 0 ++ [16 * nb - (P.length + 4)]) =
        ((u32Bytes nonce ++ P) ++ List.replicate (16 * nb - (P.length + 4) - 1) 0) ++
          [16 * nb - (P.length + 4)] from by simp [List.append_assoc]]
    rw [show 16 * nb - 1 =
        ((u32Bytes nonce ++ P) ++ List.replicate (16 * nb - (P.length + 4) - 1) 0).length
        from by
          simp only [List.length_append, length_u32Bytes, List.length_replicate]
          omega]
    exact getD_concat _ _
  simp only [hlast, Nat.mod_eq_of_lt (show 16 * nb - (P.length + 4) < 256 from by omega)]
  rw [if_pos (by omega)]
  have hout : ((aes_assembly P nonce).drop 4).take (16 * nb - (16 * nb - (P.length + 4)) - 4)
      = P := by
    rw [show 16 * nb - (16 * nb - (P.length + 4)) - 4 = P.length from by omega,
      aes_assembly_eq P nonce (by omega),
      show (u32Bytes nonce ++ P) ++
          (List.replicate (((P.length + 4) / 16 + 1) * 16 - (P.length + 4) - 1) 0 ++
            [((P.length + 4) / 16 + 1) * 16 - (P.length + 4)]) =
        u32Bytes nonce ++ (P ++
          (List.replicate (((P.length + 4) / 16 + 1) * 16 - (P.length + 4) - 1) 0 ++
            [((P.length + 4) / 16 + 1) * 16 - (P.length + 4)])) from by
          simp [List.append_assoc],
      List.drop_left' (length_u32Bytes nonce)]
    exact List.take_left P _
  rw [hout, show 16 * nb - (16 * nb - (P.length + 4)) - 4 = P.length from by omega]

/-- The IV extension constant of any state produced by key derivation from a
64-byte digest is 16 bytes long. -/
theorem setup_iv_ext_len (SHA512 : List Nat → List Nat) (secret : List Nat)
    (key_size : Nat) (h64 : (SHA512 (secret.take key_size)).length = 64) :
    (setup_aes_key SHA512 secret key_size).iv_ext_val.length = 16 := by
  simp only [setup_aes_key, sha512_keybuf_of, AES256_KEY_BYTES, AES128_KEY_BYTES,
    List.length_take, List.length_drop, h64]
  omega

/-! ### Claim theorems -/

/-- C5.  Key-size selection: the bit length recorded for both bulk cipher
keys comes from `aes_best_keysize` applied to the original secret length, and
`aes_best_keysize` implements the best-fit rule (≥32 bytes → 256-bit,
[24,32) → 192-bit, else 128-bit); in particular secrets of length 8, 24 and
32 select 128-, 192- and 256-bit keys. -/
theorem C5_keysize_selection (SHA512 : List Nat → List Nat) (key : List Nat)
    (key_size n : Nat) :
    (setup_aes_key SHA512 key key_size).enc_key.bits = 8 * aes_best_keysize key_size ∧
    (setup_aes_key SHA512 key key_size).dec_key.bits = 8 * aes_best_keysize key_size ∧
    aes_best_keysize n = (if 32 ≤ n then 32 else if 24 ≤ n then 24 else 16) ∧
    8 * aes_best_keysize 8 = 128 ∧
    8 * aes_best_keysize 24 = 192 ∧
    8 * aes_best_keysize 32 = 256 :=
  ⟨rfl, rfl, rfl, rfl, rfl, rfl⟩

/-- C6.  Key derivation is deterministic (it is a function of the digest of
the secret) and partitions the 64-byte digest into three fixed
non-overlapping slices in digest order: bytes [0,32) feed the bulk key,
bytes [32,48) the 128-bit IV-obfuscation key, bytes [48,64) the IV extension
constant; concatenating the three slices reconstructs the digest. -/
theorem C6_key_derivation_partition (SHA512 : List Nat → List Nat) (secret : List Nat)
    (key_size : Nat) (h64 : (SHA512 (secret.take key_size)).length = 64) :
    (sha512_keybuf_of (SHA512 (secret.take key_size))).enc_dec_key =
      (SHA512 (secret.take key_size)).take 32 ∧
    (sha512_keybuf_of (SHA512 (secret.take key_size))).iv_enc_key =
      ((SHA512 (secret.take key_size)).drop 32).take 16 ∧
    (sha512_keybuf_of (SHA512 (secret.take key_size))).iv_ext_val =
      ((SHA512 (secret.take key_size)).drop 48).take 16 ∧
    (sha512_keybuf_of (SHA512 (secret.take key_size))).enc_dec_key ++
        (sha512_keybuf_of (SHA512 (secret.take key_size))).iv_enc_key ++
        (sha512_keybuf_of (SHA512 (secret.take key_size))).iv_ext_val =
      SHA512 (secret.take key_size) ∧
    (setup_aes_key SHA512 secret key_size).enc_key.key =
      ((SHA512 (secret.take key_size)).take 32).take (aes_best_keysize key_size) ∧
    (setup_aes_key SHA512 secret key_size).dec_key =
      (setup_aes_key SHA512 secret key_size).enc_key ∧
    (setup_aes_key SHA512 secret key_size).iv_enc_key.key =
      ((SHA512 (secret.take key_size)).drop 32).take 16 ∧
    (setup_aes_key SHA512 secret key_size).iv_ext_val =
      ((SHA512 (secret.take key_size)).drop 48).take 16 := by
  refine ⟨rfl, rfl, rfl, ?_, ?_, rfl, ?_, rfl⟩
  · have h48 : (SHA512 (secret.take key_size)).drop 48 =
        ((SHA512 (secret.take key_size)).drop 32).drop 16 := by
      rw [List.drop_drop]
    have htk : ((SHA512 (secret.take key_size)).drop 48).take 16 =
        (SHA512 (secret.take key_size)).drop 48 :=
      List.take_of_length_le (by simp [h64])
    show (SHA512 (secret.take key_size)).take 32 ++
        ((SHA512 (secret.take key_size)).drop 32).take 16 ++
        ((SHA512 (secret.take key_size)).drop 48).take 16 = _
    rw [List.append_assoc, htk, h48, List.take_append_drop, List.take_append_drop]
  · show (sha512_keybuf_of _).enc_dec_key.take (8 * aes_best_keysize key_size / 8) = _
    rw [Nat.mul_div_cancel_left _ (by norm_num : (0:Nat) < 8)]
    rfl
  · show (((SHA512 (secret.take key_size)).drop 32).take 16).take (16 * 8 / 8) = _
    simp [List.take_take]

/-- Witness for C6 at a concrete digest function and an 8-byte secret. -/
theorem C6_key_derivation_partition_witness :
    (zeroDigest ((List.replicate 8 48).take 8)).length = 64 ∧
    ((sha512_keybuf_of (zeroDigest ((List.replicate 8 48).take 8))).enc_dec_key =
      (zeroDigest ((List.replicate 8 48).take 8)).take 32 ∧
    (sha512_keybuf_of (zeroDigest ((List.replicate 8 48).take 8))).iv_enc_key =
      ((zeroDigest ((List.replicate 8 48).take 8)).drop 32).take 16 ∧
    (sha512_keybuf_of (zeroDigest ((List.replicate 8 48).take 8))).iv_ext_val =
      ((zeroDigest ((List.replicate 8 48).take 8)).drop 48).take 16 ∧
    (sha512_keybuf_of (zeroDigest ((List.replicate 8 48).take 8))).enc_dec_key ++
        (sha512_keybuf_of (zeroDigest ((List.replicate 8 48).take 8))).iv_enc_key ++
        (sha512_keybuf_of (zeroDigest ((List.replicate 8 48).take 8))).iv_ext_val =
      zeroDigest ((List.replicate 8 48).take 8) ∧
    (setup_aes_key zeroDigest (List.replicate 8 48) 8).enc_key.key =
      ((zeroDigest ((List.replicate 8 48).take 8)).take 32).take (aes_best_keysize 8) ∧
    (setup_aes_key zeroDigest (List.replicate 8 48) 8).dec_key =
      (setup_aes_key zeroDigest (List.replicate 8 48) 8).enc_key ∧
    (setup_aes_key zeroDigest (List.replicate 8 48) 8).iv_enc_key.key =
      ((zeroDigest ((List.replicate 8 48).take 8)).drop 32).take 16 ∧
    (setup_aes_key zeroDigest (List.replicate 8 48) 8).iv_ext_val =
      ((zeroDigest ((List.replicate 8 48).take 8)).drop 48).take 16) :=
  ⟨rfl, C6_key_derivation_partition zeroDigest (List.replicate 8 48) 8 rfl⟩

/-- C7.  IV derivation is a pure total function of the state and the 64-bit
seed: the IV is the single-block (ECB) encryption under `iv_enc_key` of the
block `iv_ext_val[0:8] || seed-bytes` (the seed occupying the second 8 bytes
of the block in its in-memory representation). -/
theorem C7_iv_derivation (E : BlockFn) (priv : transop_aes) (seed : Nat) :
    set_aes_cbc_iv E priv seed =
      E priv.iv_enc_key (priv.iv_ext_val.take 8 ++ u64Bytes seed) ∧
    (u64Bytes seed).length = 8 :=
  ⟨rfl, rfl⟩

/-- C8.  Version gating: any frame whose first byte is not 1 is rejected:
decode returns 0 and copies nothing to the output buffer, regardless of the
remaining content. -/
theorem C8_version_gating (E D : BlockFn) (priv : transop_aes) (out_len : Nat)
    (inbuf : List Nat) (h : inbuf.getD 0 0 ≠ 1) :
    transop_decode_aes E D priv out_len inbuf = (0, none) := by
  unfold transop_decode_aes
  by_cases hg : c_size_t_sub inbuf.length TRANSOP_AES_PREAMBLE_SIZE ≤ N2N_PKT_BUF_SIZE ∧
      TRANSOP_AES_PREAMBLE_SIZE + TRANSOP_AES_NONCE_SIZE ≤ inbuf.length
  · rw [if_pos hg, if_neg (by simpa [N2N_AES_TRANSFORM_VERSION] using h)]
  · rw [if_neg hg]

/-- Witness for C8 at a concrete frame starting with byte 2. -/
theorem C8_version_gating_witness :
    (List.replicate 20 2).getD 0 0 ≠ 1 ∧
    transop_decode_aes idBlock idBlock stZero 0 (List.replicate 20 2) = (0, none) :=
  ⟨by decide, C8_version_gating idBlock idBlock stZero 0 (List.replicate 20 2) (by decide)⟩

/-- C10.  Any frame shorter than preamble+nonce (17 bytes) is rejected at the
decoder's entry guard with return value 0 and no output written — including
frames shorter than the 13-byte preamble, for which the guard's `size_t`
subtraction wraps around and so exceeds the scratch bound. -/
theorem C10_short_frame_reject (E D : BlockFn) (priv : transop_aes) (out_len : Nat)
    (inbuf : List Nat)
    (h : inbuf.length < TRANSOP_AES_PREAMBLE_SIZE + TRANSOP_AES_NONCE_SIZE) :
    transop_decode_aes E D priv out_len inbuf = (0, none) := by
  unfold transop_decode_aes
  rw [if_neg (fun hc => absurd hc.2 (Nat.not_le_of_lt h))]

/-- Witness for C10 at a 16-byte frame (guard length test fails) and a 5-byte
frame (the `size_t` subtraction wraps). -/
theorem C10_short_frame_reject_witness :
    (List.replicate 16 1).length < TRANSOP_AES_PREAMBLE_SIZE + TRANSOP_AES_NONCE_SIZE ∧
    (List.replicate 5 1).length < TRANSOP_AES_PREAMBLE_SIZE + TRANSOP_AES_NONCE_SIZE ∧
    transop_decode_aes idBlock idBlock stZero 0 (List.replicate 16 1) = (0, none) ∧
    transop_decode_aes idBlock idBlock stZero 0 (List.replicate 5 1) = (0, none) :=
  ⟨by decide, by decide,
   C10_short_frame_reject idBlock idBlock stZero 0 (List.replicate 16 1) (by decide),
   C10_short_frame_reject idBlock idBlock stZero 0 (List.replicate 5 1) (by decide)⟩

/-- A 29-byte frame with valid version byte, zero SA and seed, and one
ciphertext block that (under the identity block cipher and zero IV) decrypts
to a block whose final byte is 255: the decoder's padding bound check fails
on it. -/
def c2Frame : List Nat :=
  (1 :: (List.replicate 4 0 ++ List.replicate 8 0)) ++ (List.replicate 15 0 ++ [255])

/-- C2 (code bug).  On the padding-bound rejection branch (`cipherLen <
padLen + nonceSize`) the decoder does not reset `len`, so it returns the
nonzero cipher length (16 on this frame) instead of 0, even though the final
output copy was never performed; the version and alignment rejections do
return 0, so this branch alone violates the uniform-reject contract. -/
theorem C2_padding_reject_nonzero :
    c2Frame.length = 29 ∧
    c2Frame.getD 0 0 = 1 ∧
    (c2Frame.length - 13) % 16 = 0 ∧
    transop_decode_aes idBlock idBlock stZero 4096 c2Frame = (16, none) := by
  refine ⟨rfl, rfl, rfl, ?_⟩
  decide

/-- C3 (code bug).  The encoder's capacity guard only requires
`inLen + nonce + preamble ≤ outCap`, which does not account for the padding
added below: with an empty plaintext and a capacity of 17 the guard passes,
and the encoder builds (and reports having written) a full 29-byte frame —
12 bytes beyond the caller's buffer — instead of rejecting with
`OutputTooSmall`. -/
theorem C3_output_capacity_bug :
    (transop_encode_aes idBlock stZero 17 [] 0 0).1 = 29 ∧
    ((transop_encode_aes idBlock stZero 17 [] 0 0).2.getD []).length = 29 ∧
    17 < 29 := by
  refine ⟨?_, ?_, by norm_num⟩ <;> decide

/-- C4 (amended).  Padding policy, for every plaintext with
`nonce||plaintext` strictly shorter than the scratch buffer (plaintext
length at most MAX−5, where the padded buffer still fits the 2048-byte
zero-pre-filled array and the embedding matches the C stores byte for
byte): the padded pre-encryption buffer is exactly
`nonce(4) || plaintext || zeros || [pad]`: its length is the next multiple
of 16 strictly above `4 + |plaintext|`, the pad count `pad ∈ [1,16]` is
stored in the final byte, all other pad bytes are zero (left over from the
zero pre-fill), and a block-aligned `nonce||plaintext` gains a full extra
block (`pad = 16`).  At the one remaining accepted length MAX−4 the pad
store lands outside the scratch array (see the counterexample below). -/
theorem C4_padding_policy (inbuf : List Nat) (nonce : Nat)
    (h : inbuf.length + TRANSOP_AES_NONCE_SIZE < N2N_PKT_BUF_SIZE) :
    aes_assembly inbuf nonce =
      (u32Bytes nonce ++ inbuf) ++
        (List.replicate (((inbuf.length + 4) / 16 + 1) * 16 - (inbuf.length + 4) - 1) 0 ++
          [((inbuf.length + 4) / 16 + 1) * 16 - (inbuf.length + 4)]) ∧
    (aes_assembly inbuf nonce).length = ((inbuf.length + 4) / 16 + 1) * 16 ∧
    1 ≤ ((inbuf.length + 4) / 16 + 1) * 16 - (inbuf.length + 4) ∧
    ((inbuf.length + 4) / 16 + 1) * 16 - (inbuf.length + 4) ≤ 16 ∧
    (((inbuf.length + 4) / 16 + 1) * 16) % 16 = 0 ∧
    inbuf.length + 4 < ((inbuf.length + 4) / 16 + 1) * 16 ∧
    ((inbuf.length + 4) / 16 + 1) * 16 ≤ inbuf.length + 4 + 16 ∧
    ((inbuf.length + 4) % 16 = 0 →
      ((inbuf.length + 4) / 16 + 1) * 16 - (inbuf.length + 4) = 16) := by
  have h' : inbuf.length + 4 ≤ 2048 := by
    simp only [TRANSOP_AES_NONCE_SIZE, N2N_PKT_BUF_SIZE] at h
    omega
  exact ⟨aes_assembly_eq inbuf nonce h', aes_assembly_length inbuf nonce h',
    by omega, by omega, by omega, by omega, by omega, by intro hmod; omega⟩

/-- Witness for C4 at a 12-byte plaintext (so `nonce||plaintext` is exactly
one block and gains a full extra padding block). -/
theorem C4_padding_policy_witness :
    (List.replicate 12 7).length + TRANSOP_AES_NONCE_SIZE < N2N_PKT_BUF_SIZE ∧
    (aes_assembly (List.replicate 12 7) 9 =
      (u32Bytes 9 ++ List.replicate 12 7) ++
        (List.replicate ((((List.replicate 12 7).length + 4) / 16 + 1) * 16 -
            ((List.replicate 12 7).length + 4) - 1) 0 ++
          [(((List.replicate 12 7).length + 4) / 16 + 1) * 16 -
            ((List.replicate 12 7).length + 4)]) ∧
    (aes_assembly (List.replicate 12 7) 9).length =
      (((List.replicate 12 7).length + 4) / 16 + 1) * 16 ∧
    1 ≤ (((List.replicate 12 7).length + 4) / 16 + 1) * 16 -
      ((List.replicate 12 7).length + 4) ∧
    (((List.replicate 12 7).length + 4) / 16 + 1) * 16 -
      ((List.replicate 12 7).length + 4) ≤ 16 ∧
    ((((List.replicate 12 7).length + 4) / 16 + 1) * 16) % 16 = 0 ∧
    (List.replicate 12 7).length + 4 <
      (((List.replicate 12 7).length + 4) / 16 + 1) * 16 ∧
    (((List.replicate 12 7).length + 4) / 16 + 1) * 16 ≤
      (List.replicate 12 7).length + 4 + 16 ∧
    (((List.replicate 12 7).length + 4) % 16 = 0 →
      (((List.replicate 12 7).length + 4) / 16 + 1) * 16 -
        ((List.replicate 12 7).length + 4) = 16)) :=
  ⟨by decide, C4_padding_policy (List.replicate 12 7) 9 (by decide)⟩

/-- C1 (amended).  Round-trip: for any state produced by key derivation (from
any secret, via any 64-byte digest), any block cipher whose decryption
inverts its encryption on the derived key pair, and any plaintext of length
at most MAX−5 (not MAX−4), encoding into a sufficiently large buffer and
decoding the produced frame with the same state recovers exactly the
plaintext (its length is returned and exactly its bytes are copied out). -/
theorem C1_roundtrip_amended (E D : BlockFn) (SHA512 : List Nat → List Nat)
    (secret : List Nat) (key_size : Nat) (P : List Nat)
    (out_len dout seed nonce : Nat)
    (h64 : (SHA512 (secret.take key_size)).length = 64)
    (hE : ∀ k b, b.length = 16 → (E k b).length = 16)
    (hD : ∀ b, b.length = 16 →
      D (setup_aes_key SHA512 secret key_size).dec_key
        (E (setup_aes_key SHA512 secret key_size).enc_key b) = b)
    (hP : P.length ≤ N2N_PKT_BUF_SIZE - 5)
    (hout : P.length + TRANSOP_AES_NONCE_SIZE + TRANSOP_AES_PREAMBLE_SIZE ≤ out_len) :
    ∃ ret frame,
      transop_encode_aes E (setup_aes_key SHA512 secret key_size) out_len P seed nonce =
        (ret, some frame) ∧
      transop_decode_aes E D (setup_aes_key SHA512 secret key_size) dout frame =
        (P.length, some P) := by
  have hext : 8 ≤ (setup_aes_key SHA512 secret key_size).iv_ext_val.length := by
    rw [setup_iv_ext_len SHA512 secret key_size h64]
    omega
  have hP' : P.length ≤ 2043 := by
    simp only [N2N_PKT_BUF_SIZE] at hP
    omega
  have h2 : P.length + 17 ≤ out_len := by
    simp only [TRANSOP_AES_NONCE_SIZE, TRANSOP_AES_PREAMBLE_SIZE, TRANSOP_AES_VER_SIZE,
      TRANSOP_AES_SA_SIZE, TRANSOP_AES_IV_SEED_SIZE] at hout
    omega
  exact ⟨_, _,
    transop_encode_aes_ok E (setup_aes_key SHA512 secret key_size) out_len P seed nonce
      (by omega) h2,
    transop_decode_aes_frame E D (setup_aes_key SHA512 secret key_size) dout P seed nonce
      hE hD hext hP'⟩

/-- Witness for the amended round-trip at a concrete state (8-byte secret,
all-zero digest function, identity block cipher) and the 3-byte plaintext
`[9, 9, 9]`. -/
theorem C1_roundtrip_amended_witness :
    (zeroDigest ((List.replicate 8 48).take 8)).length = 64 ∧
    (List.replicate 3 9).length ≤ N2N_PKT_BUF_SIZE - 5 ∧
    (List.replicate 3 9).length + TRANSOP_AES_NONCE_SIZE + TRANSOP_AES_PREAMBLE_SIZE
      ≤ 100 ∧
    (∃ ret frame,
      transop_encode_aes idBlock stZero 100 (List.replicate 3 9) 5 7 =
        (ret, some frame) ∧
      transop_decode_aes idBlock idBlock stZero 0 frame =
        ((List.replicate 3 9).length, some (List.replicate 3 9))) :=
  ⟨rfl, by decide, by decide,
   C1_roundtrip_amended idBlock idBlock zeroDigest (List.replicate 8 48) 8
     (List.replicate 3 9) 100 0 5 7 rfl (fun _ _ hb => hb) (fun _ _ => rfl)
     (by decide) (by decide)⟩

/-- The boundary plaintext on which the claimed round-trip range fails:
exactly MAX − 4 = 2044 bytes. -/
def cexP : List Nat := List.replicate 2044 0

/-- C1 (counterexample).  At plaintext length MAX − 4 (the upper end of the
claimed range, and accepted by the encoder's entry guard) the padded
ciphertext is MAX + 16 bytes, so the produced frame exceeds the decoder's
scratch bound and decode rejects it with (0, no output) instead of returning
the plaintext: `decode(state, encode(state, P)) ≠ P` there. -/
theorem C1_roundtrip_counterexample :
    cexP.length = N2N_PKT_BUF_SIZE - TRANSOP_AES_NONCE_SIZE ∧
    transop_decode_aes idBlock idBlock stZero 4096
      ((transop_encode_aes idBlock stZero 4096 cexP 0 0).2.getD []) = (0, none) ∧
    transop_decode_aes idBlock idBlock stZero 4096
      ((transop_encode_aes idBlock stZero 4096 cexP 0 0).2.getD [])
      ≠ (cexP.length, some cexP) := by
  have hlen : cexP.length = 2044 := by
    unfold cexP
    exact List.length_replicate 2044 0
  have hmain : transop_decode_aes idBlock idBlock stZero 4096
      ((transop_encode_aes idBlock stZero 4096 cexP 0 0).2.getD []) = (0, none) := by
    rw [transop_encode_aes_ok idBlock stZero 4096 cexP 0 0 (by omega) (by omega)]
    dsimp only [Option.getD_some]
    have hivlen : (set_aes_cbc_iv idBlock stZero 0).length = 16 := by decide
    have hblocks : (cexP.length + 4) / 16 + 1 = 129 := by rw [hlen]
    have hctlen : (cbcEncryptN idBlock stZero.enc_key ((cexP.length + 4) / 16 + 1)
        (set_aes_cbc_iv idBlock stZero 0) (aes_assembly cexP 0)).length = 16 * 129 := by
      rw [hblocks]
      exact cbcEncryptN_length idBlock stZero.enc_key (fun _ _ hb => hb) 129 _ _ hivlen
        (by rw [aes_assembly_length cexP 0 (by omega)]; omega)
    have hframelen : ((1 :: (u32Bytes 0 ++ u64Bytes 0)) ++
        cbcEncryptN idBlock stZero.enc_key ((cexP.length + 4) / 16 + 1)
          (set_aes_cbc_iv idBlock stZero 0) (aes_assembly cexP 0)).length = 2077 := by
      simp only [List.length_append, hctlen]
      rfl
    unfold transop_decode_aes
    rw [if_neg]
    rw [hframelen]
    intro hc
    have := hc.1
    unfold c_size_t_sub at this
    simp only [TRANSOP_AES_PREAMBLE_SIZE, TRANSOP_AES_VER_SIZE, TRANSOP_AES_SA_SIZE,
      TRANSOP_AES_IV_SEED_SIZE, N2N_PKT_BUF_SIZE] at this
    omega
  refine ⟨by rw [hlen]; rfl, hmain, ?_⟩
  rw [hmain, hlen]
  simp

/-- C9.  Concrete scenario: with a state derived from an 8-byte secret (as at
initialisation, the key size is the secret's length) and an empty payload,
encode succeeds and returns exactly 13 + 16 = 29 bytes — the 13-byte preamble
plus one padded cipher block — and decoding that exact 29-byte frame with the
same state succeeds, returning length 0 and copying out exactly the empty
byte sequence. -/
theorem C9_concrete_scenario (E D : BlockFn) (SHA512 : List Nat → List Nat)
    (secret : List Nat) (out_len dout seed nonce : Nat)
    (hsecret : secret.length = 8)
    (h64 : (SHA512 (secret.take secret.length)).length = 64)
    (hE : ∀ k b, b.length = 16 → (E k b).length = 16)
    (hD : ∀ b, b.length = 16 →
      D (setup_aes_key SHA512 secret secret.length).dec_key
        (E (setup_aes_key SHA512 secret secret.length).enc_key b) = b)
    (hout : 17 ≤ out_len) :
    ∃ frame,
      transop_encode_aes E (setup_aes_key SHA512 secret secret.length) out_len [] seed
        nonce = ((29 : Int), some frame) ∧
      frame.length = 29 ∧ (29 : Nat) = 13 + 16 ∧
      transop_decode_aes E D (setup_aes_key SHA512 secret secret.length) dout frame =
        (0, some []) := by
  have hext : 8 ≤ (setup_aes_key SHA512 secret secret.length).iv_ext_val.length := by
    rw [setup_iv_ext_len SHA512 secret secret.length h64]
    omega
  have hivlen : (set_aes_cbc_iv E (setup_aes_key SHA512 secret secret.length) seed).length
      = 16 := by
    unfold set_aes_cbc_iv
    apply hE
    simp only [List.length_append, List.length_take, length_u64Bytes,
      TRANSOP_AES_IV_SEED_SIZE]
    omega
  have henc := transop_encode_aes_ok E (setup_aes_key SHA512 secret secret.length) out_len
    [] seed nonce (by decide) (by simpa using hout)
  have hdec := transop_decode_aes_frame E D (setup_aes_key SHA512 secret secret.length)
    dout [] seed nonce hE hD hext (by decide)
  have hctlen : (cbcEncryptN E (setup_aes_key SHA512 secret secret.length).enc_key
      ((([] : List Nat).length + 4) / 16 + 1)
      (set_aes_cbc_iv E (setup_aes_key SHA512 secret secret.length) seed)
      (aes_assembly [] nonce)).length = 16 * 1 := by
    have h1 : (([] : List Nat).length + 4) / 16 + 1 = 1 := by decide
    rw [h1]
    exact cbcEncryptN_length E _ hE 1 _ _ hivlen
      (by rw [aes_assembly_length [] nonce (by decide)]; decide)
  refine ⟨_, ?_, ?_, rfl, hdec⟩
  · rw [henc]
    norm_num
  · simp only [List.length_append, hctlen]
    rfl

/-- Witness for C9 at a concrete 8-byte ASCII secret ("00000000"), the
all-zero digest function, and the identity block cipher. -/
theorem C9_concrete_scenario_witness :
    (List.replicate 8 48).length = 8 ∧
    (zeroDigest ((List.replicate 8 48).take (List.replicate 8 48).length)).length = 64 ∧
    (17 : Nat) ≤ 40 ∧
    (∃ frame,
      transop_encode_aes idBlock stZero 40 [] 5 7 = ((29 : Int), some frame) ∧
      frame.length = 29 ∧ (29 : Nat) = 13 + 16 ∧
      transop_decode_aes idBlock idBlock stZero 3 frame = (0, some [])) :=
  ⟨by decide, rfl, by decide,
   C9_concrete_scenario idBlock idBlock zeroDigest (List.replicate 8 48) 40 3 5 7
     (by decide) rfl (fun _ _ hb => hb) (fun _ _ => rfl) (by decide)⟩

/-- C4 (counterexample).  At plaintext length MAX − 4 = 2044 — accepted by
the encoder's entry guard — the padded pre-encryption buffer must be
MAX + 16 = 2064 bytes, longer than the entire 2048-byte zero-pre-filled
scratch array: the pad-count store targets index 2063, outside the array,
and the bytes at positions [2048, 2064) are not covered by the zero
pre-fill.  The claimed picture (pad value written into the last byte of the
buffer, the other pad bytes zero from the pre-fill) is therefore not a
guarantee the program provides at this length; the embedding's
`aes_assembly` only realises it there by idealising the out-of-bounds
bytes as zeros. -/
theorem C4_padding_policy_counterexample :
    cexP.length + TRANSOP_AES_NONCE_SIZE ≤ N2N_PKT_BUF_SIZE ∧
    (aes_assembly cexP 0).length =
      ((cexP.length + TRANSOP_AES_NONCE_SIZE) / AES_BLOCK_SIZE + 1) * AES_BLOCK_SIZE ∧
    N2N_PKT_BUF_SIZE <
      ((cexP.length + TRANSOP_AES_NONCE_SIZE) / AES_BLOCK_SIZE + 1) * AES_BLOCK_SIZE ∧
    N2N_PKT_BUF_SIZE ≤
      ((cexP.length + TRANSOP_AES_NONCE_SIZE) / AES_BLOCK_SIZE + 1) * AES_BLOCK_SIZE - 1 := by
  have hlen : cexP.length = 2044 := by
    unfold cexP
    exact List.length_replicate 2044 0
  have hA : (aes_assembly cexP 0).length = ((cexP.length + 4) / 16 + 1) * 16 :=
    aes_assembly_length cexP 0 (by omega)
  simp only [TRANSOP_AES_NONCE_SIZE, N2N_PKT_BUF_SIZE, AES_BLOCK_SIZE, hlen] at hA ⊢
  refine ⟨by omega, ?_, by omega, by omega⟩
  rw [hA]
